import Mathlib

/-!
Verification of the SMS conversation gateway (src/server/server.js).

The JavaScript source is shallowly embedded: each route handler and helper
function becomes a pure Lean function over explicit state (the in-memory
`messages` array becomes a `List Msg` threaded through the handlers), and
the external collaborators (the Twilio carrier client, the HubSpot HTTP
client, jwt verification) become oracle functions passed as parameters,
returning `Except` to model a throwing call.  JavaScript strings are Lean
`String`s; a JS string value that may also be `undefined` or `null` is an
`Option String`, and JS falsiness on such values (`!s` holds exactly for
`''`, `null`, `undefined`) is the predicate `jsFalsy`.  A JS value that is
`undefined` in a position where only its string content is ever observed
is modelled as `""` (both are falsy and both compare equal only to
themselves).  `Array.prototype.sort(cmp)` is modelled by `List.mergeSort`
with the boolean relation `fun a b => cmp a b <= 0`, a comparator-driven
stable merge sort.
-/

namespace Stonebridge

/-- Models JavaScript `String.prototype.startsWith`. -/
def jsStartsWith (s p : String) : Bool := p.data.isPrefixOf s.data

/-- Models JavaScript `String.prototype.slice(n)` for `n ≥ 0`: the suffix
from character index `n`. -/
def jsSlice (s : String) (n : Nat) : String := String.mk (s.data.drop n)

/-- Models JS falsiness of a possibly-`undefined`/`null` string value:
`!s` is true exactly for `undefined`, `null` and `''`. -/
def jsFalsy : Option String → Bool
  | none => true
  | some s => s == ""

/-- Models the JS `a || b` idiom on possibly-missing strings: returns `a`
when truthy, else `b`. -/
def jsOrOpt (a b : Option String) : Option String := if jsFalsy a then b else a

/-- Models `String(p).replace(/[^\d]/g, '')` from `normalizeUS`:
keeps exactly the decimal digit characters of the string. -/
def stripNonDigits (s : String) : String := String.mk (s.data.filter Char.isDigit)

/-- Embeds `normalizeUS` (src/server/server.js lines 45-52):
`if (!p) return p;`, digit stripping, then the four return branches in
source order (10 digits; 11 digits starting with `'1'`; stripped string
starting with `'+'`; unconditional `'+'` fallback). -/
def normalizeUS (p : String) : String :=
  if p = "" then p
  else
    let digits := stripNonDigits p
    if digits.length = 10 then "+1" ++ digits
    else if jsStartsWith digits ("1") = true ∧ digits.length = 11 then "+" ++ digits
    else if jsStartsWith digits ("+") = true then digits
    else "+" ++ digits

/-- Models `Array.prototype.sort(cmp)` as a stable merge sort driven by
the boolean relation `le a b`, which stands for `cmp(a, b) <= 0`. -/
def jsSortBy {α : Type} (le : α → α → Bool) (l : List α) : List α := l.mergeSort le

/-- A record of the in-memory `messages` array
(`{ id, customer_phone, direction, body, created_at }`). -/
structure Msg where
  id : String
  customer_phone : String
  direction : String
  body : String
  created_at : String
deriving DecidableEq

/-- An entry of the map built by the `GET /conversations` handler
(`{ customer_phone, last_at }`). -/
structure Conv where
  customer_phone : String
  last_at : String
deriving DecidableEq

/-- Embeds the `GET /messages` handler body (lines 124-128): normalize the
`phone` query parameter, filter the log by strict equality on
`customer_phone`, and sort by the comparator
`(a,b) => (a.created_at < b.created_at ? -1 : 1)`. -/
def getMessages (messages : List Msg) (phoneRaw : String) : List Msg :=
  let phone := normalizeUS phoneRaw
  jsSortBy (fun a b => decide (a.created_at < b.created_at))
    (messages.filter (fun m => m.customer_phone == phone))

/-- Embeds one iteration of the `for (const m of messages)` loop of the
`GET /conversations` handler (lines 114-119).  The JS `Map` keyed by
`customer_phone` is an association list in key-insertion order:
`map.set` on a fresh key appends, and on an existing key updates in
place. -/
def convStep (map : List Conv) (m : Msg) : List Conv :=
  match map.find? (fun c => c.customer_phone == m.customer_phone) with
  | none => map ++ [{ customer_phone := m.customer_phone, last_at := m.created_at }]
  | some prev =>
      if prev.last_at < m.created_at then
        map.map (fun c =>
          if c.customer_phone == m.customer_phone then
            { customer_phone := m.customer_phone, last_at := m.created_at }
          else c)
      else map

/-- Embeds the `GET /conversations` handler body (lines 113-121): build
the per-phone map of latest timestamps, then sort its values by the
comparator `(a,b) => (a.last_at < b.last_at ? 1 : -1)`. -/
def getConversations (messages : List Msg) : List Conv :=
  jsSortBy (fun a b => !decide (a.last_at < b.last_at)) (messages.foldl convStep [])

/-- The HTTP calls `logToHubSpot` can issue against the HubSpot client
(contact search, contact creation, note creation). -/
inductive HsCall where
  | searchContact (phone : Option String)
  | createContact (phone : Option String)
  | createNote (ts : String) (noteBody : String) (assoc : Option String)
deriving DecidableEq

/-- The fields of a HubSpot response that `logToHubSpot` reads:
`search.data?.results?.[0]?.id` and `created.data.id`. -/
structure HsResp where
  firstResultId : Option String
  dataId : Option String
deriving DecidableEq

/-- Oracle for the HubSpot client: maps each call to a response, or to an
error (a rejected axios promise / thrown exception). -/
def HsOracle : Type := HsCall → Except String HsResp

/-- The note text `SMS ${from ? 'from ' + from : ''}${to ? ' to ' + to : ''}\n\n${body}`
built at line 75. -/
def hsNoteBody (f t : Option String) (body : String) : String :=
  "SMS " ++ (if jsFalsy f then "" else "from " ++ f.getD ("")) ++
    (if jsFalsy t then "" else " to " ++ t.getD ("")) ++ "\n\n" ++ body

/-- The `try`-block body of `logToHubSpot` (lines 57-81), with errors of
any step propagating (`Except.error`): normalize `from || to`, search for
a contact, create one when the search result id is falsy, then create the
note, associated to the contact when the contact id is truthy.  Returns
the list of HubSpot calls made. -/
def logToHubSpotBody (f t : Option String) (body ts : String) (hs : HsOracle) :
    Except String Unit × List HsCall :=
  let phone := (jsOrOpt f t).map normalizeUS
  match hs (HsCall.searchContact phone) with
  | Except.error e => (Except.error e, [HsCall.searchContact phone])
  | Except.ok search =>
    if jsFalsy search.firstResultId then
      match hs (HsCall.createContact phone) with
      | Except.error e =>
          (Except.error e, [HsCall.searchContact phone, HsCall.createContact phone])
      | Except.ok created =>
        let note := HsCall.createNote ts (hsNoteBody f t body)
          (if jsFalsy created.dataId then none else created.dataId)
        match hs note with
        | Except.error e =>
            (Except.error e, [HsCall.searchContact phone, HsCall.createContact phone, note])
        | Except.ok _ =>
            (Except.ok (), [HsCall.searchContact phone, HsCall.createContact phone, note])
    else
      let note := HsCall.createNote ts (hsNoteBody f t body) search.firstResultId
      match hs note with
      | Except.error e => (Except.error e, [HsCall.searchContact phone, note])
      | Except.ok _ => (Except.ok (), [HsCall.searchContact phone, note])

/-- Embeds `logToHubSpot` (lines 55-85): the cheap unconfigured check
`if (!HUBSPOT_TOKEN) return;` before any network interaction, then the
`try`-block with every error swallowed by the `catch` (which only calls
`console.error`). -/
def logToHubSpot (hubspotToken : String) (f t : Option String) (body ts : String)
    (hs : HsOracle) : Except String Unit × List HsCall :=
  if hubspotToken == "" then (Except.ok (), [])
  else
    let r := logToHubSpotBody f t body ts hs
    (match r.fst with
     | Except.error _ => Except.ok ()
     | Except.ok _ => Except.ok (), r.snd)

/-- The argument of `twilioClient.messages.create` at lines 138-142. -/
structure CarrierCall where
  toNumber : String
  body : String
  messagingServiceSid : String
deriving DecidableEq

/-- The response value of the `POST /messages` handler. -/
inductive SendResp where
  | validationError
  | notConfigured
  | sendFailed
  | ok (sid : String) (message : Msg)
deriving DecidableEq

/-- The HTTP status attached to each `POST /messages` response
(400 validation, 500 not-configured / send-failed, 200 success). -/
def SendResp.status : SendResp → Nat
  | SendResp.validationError => 400
  | SendResp.notConfigured => 500
  | SendResp.sendFailed => 500
  | SendResp.ok _ _ => 200

/-- Result of one `POST /messages` request: the response, the messages
array afterwards, and the carrier and HubSpot calls issued. -/
structure SendOutcome where
  resp : SendResp
  messages : List Msg
  carrierCalls : List CarrierCall
  hsCalls : List HsCall
deriving DecidableEq

/-- Embeds the `POST /messages` handler body (lines 131-155), after
`requireAuth` has passed.  `twilioConfigured` models `twilioClient` being
non-null; `carrier` models `twilioClient.messages.create`, whose thrown
error lands in the surrounding `catch` (the 500 `Send failed` response);
`newId` and `ts` model the store-generated `id()` and `now()` values.
`logToHubSpot` is invoked fire-and-forget (`.catch(()=>{})`), so only its
call trace is kept. -/
def postMessages (twilioConfigured : Bool) (messagingServiceSid hubspotToken : String)
    (messages : List Msg) (toRaw bodyRaw : Option String)
    (carrier : CarrierCall → Except String String) (hs : HsOracle)
    (newId ts : String) : SendOutcome :=
  if jsFalsy toRaw || jsFalsy bodyRaw then
    { resp := SendResp.validationError, messages := messages,
      carrierCalls := [], hsCalls := [] }
  else if !twilioConfigured || messagingServiceSid == "" then
    { resp := SendResp.notConfigured, messages := messages,
      carrierCalls := [], hsCalls := [] }
  else
    let toNorm := normalizeUS (toRaw.getD (""))
    let call : CarrierCall :=
      { toNumber := toNorm, body := bodyRaw.getD (""), messagingServiceSid := messagingServiceSid }
    match carrier call with
    | Except.error _ =>
        { resp := SendResp.sendFailed, messages := messages,
          carrierCalls := [call], hsCalls := [] }
    | Except.ok sid =>
        let msg : Msg :=
          { id := newId, customer_phone := toNorm, direction := "outbound",
            body := bodyRaw.getD (""), created_at := ts }
        { resp := SendResp.ok sid msg, messages := messages ++ [msg],
          carrierCalls := [call],
          hsCalls := (logToHubSpot hubspotToken none (some toNorm) (bodyRaw.getD ("")) ts hs).snd }

/-- The response of the `POST /webhooks/twilio-sms` handler. -/
structure XmlResp where
  status : Nat
  contentType : String
  responseBody : String
deriving DecidableEq

/-- Embeds the `POST /webhooks/twilio-sms` handler (lines 158-174).
`internalThrow` models any synchronous throw inside the `try` block (e.g.
the store append failing), which lands in the `catch` that responds
`res.status(200).type('text/xml').send('<Response/>')`; the non-throwing
path responds `res.type('text/xml').send('<Response/>')`, whose status
defaults to 200.  A missing `req.body.From` is modelled as `""`. -/
def webhookTwilioSms (messages : List Msg) (reqFrom reqBody : Option String)
    (hubspotToken : String) (hs : HsOracle) (newId ts : String)
    (internalThrow : Bool) : XmlResp × List Msg × List HsCall :=
  if internalThrow then
    ({ status := 200, contentType := "text/xml", responseBody := "<Response/>" },
      messages, [])
  else
    let fromPhone := normalizeUS (reqFrom.getD (""))
    let body := if jsFalsy reqBody then "" else reqBody.getD ("")
    let msg : Msg :=
      { id := newId, customer_phone := fromPhone, direction := "inbound",
        body := body, created_at := ts }
    let hsEff := logToHubSpot hubspotToken (some fromPhone) none body ts hs
    ({ status := 200, contentType := "text/xml", responseBody := "<Response/>" },
      messages ++ [msg], hsEff.snd)

/-- The jwt payload signed at login (`{ sub, email }`). -/
structure JwtClaims where
  sub : String
  email : String
deriving DecidableEq

/-- The 401 response body of `requireAuth` (`{ error }` with the status). -/
structure AuthErr where
  status : Nat
  error : String
deriving DecidableEq

/-- Embeds the `requireAuth` middleware (lines 97-107): read the
`authorization` header defaulting to `''`, extract the token after
`'Bearer '` (else `null`), reject falsy tokens with 401 `No token`, and
reject tokens failing `jwt.verify` (the throwing call is the `verify`
oracle) with 401 `Invalid token`. -/
def requireAuth (authorization : Option String)
    (verify : String → Except String JwtClaims) : Except AuthErr JwtClaims :=
  let h := authorization.getD ("")
  let token : Option String := if jsStartsWith h ("Bearer ") then some (jsSlice h 7) else none
  if jsFalsy token then Except.error { status := 401, error := "No token" }
  else
    match verify (token.getD ("")) with
    | Except.ok payload => Except.ok payload
    | Except.error _ => Except.error { status := 401, error := "Invalid token" }

/-- Invariant of the `GET /conversations` loop: after processing the
messages `proc`, the accumulated map `acc` has pairwise-distinct keys,
its keys are exactly the phones of `proc`, and each entry's `last_at` is
a realized and maximal `created_at` among the entries of `proc` with
that phone. -/
def ConvGood (proc : List Msg) (acc : List Conv) : Prop :=
  (acc.map (fun c => c.customer_phone)).Nodup ∧
  (∀ p, p ∈ acc.map (fun c => c.customer_phone) ↔
    p ∈ proc.map (fun m => m.customer_phone)) ∧
  ∀ c ∈ acc,
    c.last_at ∈ (proc.filter (fun m => m.customer_phone == c.customer_phone)).map
      (fun m => m.created_at) ∧
    ∀ m ∈ proc, m.customer_phone = c.customer_phone → m.created_at ≤ c.last_at

/-- A two-message log over two identities, used as concrete witness data. -/
def exampleLog : List Msg :=
  [Msg.mk ("m1") ("+15550001111") ("inbound") ("hi") ("2024-01-01T00:00:00.000Z"),
   Msg.mk ("m2") ("+15550002222") ("outbound") ("yo") ("2024-01-02T00:00:00.000Z")]

/-- The conversation entry of the first identity of `exampleLog`. -/
def exampleConv : Conv := Conv.mk ("+15550001111") ("2024-01-01T00:00:00.000Z")

theorem stripNonDigits_data (s : String) :
    (stripNonDigits s).data = s.data.filter Char.isDigit := rfl

theorem mem_stripNonDigits_isDigit (s : String) :
    ∀ c ∈ (stripNonDigits s).data, c.isDigit := by
  intro c hc
  rw [stripNonDigits_data] at hc
  exact (List.mem_filter.mp hc).2

theorem all_digits_filter_self {l : List Char} (h : ∀ c ∈ l, c.isDigit) :
    l.filter Char.isDigit = l := List.filter_eq_self.mpr h

/-- The stripped digit string never begins with a `'+'` character, so the
`digits.startsWith('+')` branch of `normalizeUS` can never be taken. -/
theorem stripNonDigits_startsWith_plus (s : String) :
    jsStartsWith (stripNonDigits s) ("+") = false := by
  have hd := mem_stripNonDigits_isDigit s
  unfold jsStartsWith
  cases hmatch : (stripNonDigits s).data with
  | nil => rfl
  | cons c l =>
    have hc : c.isDigit := by
      apply hd
      rw [hmatch]
      exact List.mem_cons_self c l
    have hne : ('+' == c) = false := by
      cases hbe : ('+' == c) with
      | false => rfl
      | true =>
        exfalso
        have : '+' = c := eq_of_beq hbe
        rw [← this] at hc
        exact absurd hc (by decide)
    show List.isPrefixOf ['+'] (c :: l) = false
    simp [List.isPrefixOf, hne]

/-- Extensional characterisation of `normalizeUS` on nonempty input: the
result is the stripped digit string prefixed with the default country code
when it has exactly 10 digits, and prefixed with a bare `'+'` otherwise;
the `digits.startsWith('+')` branch is unreachable. -/
theorem normalizeUS_characterisation (p : String) (h : p ≠ "") :
    normalizeUS p =
      if (stripNonDigits p).length = 10 then "+1" ++ stripNonDigits p
      else "+" ++ stripNonDigits p := by
  unfold normalizeUS
  rw [if_neg h]
  by_cases h10 : (stripNonDigits p).length = 10
  · rw [if_pos h10, if_pos h10]
  · rw [if_neg h10, if_neg h10]
    by_cases h11 : jsStartsWith (stripNonDigits p) ("1") = true ∧
        (stripNonDigits p).length = 11
    · rw [if_pos h11]
    · rw [if_neg h11]
      rw [if_neg (by simp [stripNonDigits_startsWith_plus p])]

theorem string_length_data (s : String) : s.length = s.data.length := rfl

theorem plus_one_append_data (d : String) :
    (("+1" : String) ++ d).data = '+' :: '1' :: d.data := by
  rw [String.data_append]
  rfl

theorem plus_append_data (d : String) :
    (("+" : String) ++ d).data = '+' :: d.data := by
  rw [String.data_append]
  rfl

theorem plus_append_ne_empty (d : String) : ("+" : String) ++ d ≠ "" := by
  intro hcon
  have : (("+" : String) ++ d).data = ("" : String).data := by rw [hcon]
  rw [plus_append_data] at this
  exact List.cons_ne_nil _ _ this

theorem plus_one_append_ne_empty (d : String) : ("+1" : String) ++ d ≠ "" := by
  intro hcon
  have : (("+1" : String) ++ d).data = ("" : String).data := by rw [hcon]
  rw [plus_one_append_data] at this
  exact List.cons_ne_nil _ _ this

/-- Stripping the non-digits of `'+1' ++ d` when `d` is already all digits
yields `'1' ++ d`. -/
theorem stripNonDigits_plus_one (d : String) (hd : ∀ c ∈ d.data, c.isDigit) :
    stripNonDigits (("+1" : String) ++ d) = String.mk ('1' :: d.data) := by
  apply String.ext
  rw [stripNonDigits_data, plus_one_append_data]
  show List.filter Char.isDigit ('+' :: '1' :: d.data) = '1' :: d.data
  rw [List.filter_cons_of_neg (by decide), List.filter_cons_of_pos (by decide),
    all_digits_filter_self hd]

/-- Stripping the non-digits of `'+' ++ d` when `d` is already all digits
gives back `d`. -/
theorem stripNonDigits_plus (d : String) (hd : ∀ c ∈ d.data, c.isDigit) :
    stripNonDigits (("+" : String) ++ d) = d := by
  apply String.ext
  rw [stripNonDigits_data, plus_append_data]
  show List.filter Char.isDigit ('+' :: d.data) = d.data
  rw [List.filter_cons_of_neg (by decide), all_digits_filter_self hd]

/-- `normalizeUS` is idempotent. -/
theorem normalizeUS_idem (x : String) :
    normalizeUS (normalizeUS x) = normalizeUS x := by
  by_cases hx : x = ""
  · subst hx
    rfl
  · rw [normalizeUS_characterisation x hx]
    have hd := mem_stripNonDigits_isDigit x
    by_cases h10 : (stripNonDigits x).length = 10
    · rw [if_pos h10]
      rw [normalizeUS_characterisation _ (plus_one_append_ne_empty _)]
      rw [stripNonDigits_plus_one _ hd]
      have hlen : (String.mk ('1' :: (stripNonDigits x).data)).length = 11 := by
        rw [string_length_data]
        show ('1' :: (stripNonDigits x).data).length = 11
        rw [List.length_cons, string_length_data] at *
        omega
      rw [if_neg (by omega)]
      apply String.ext
      rw [plus_append_data, plus_one_append_data]
    · rw [if_neg h10]
      rw [normalizeUS_characterisation _ (plus_append_ne_empty _)]
      rw [stripNonDigits_plus _ hd, if_neg h10]

/-- C2 (counterexample): the input `"+5551234567"` has a leading `'+'`,
yet `normalizeUS` prepends the default country code instead of returning
the stripped digit string prefixed with `'+'` as-is: the 10-digit branch
fires before any leading-`'+'` consideration. -/
theorem claim_C2_counterexample :
    jsStartsWith ("+5551234567") ("+") = true ∧
    normalizeUS ("+5551234567") = "+15551234567" ∧
    ¬ normalizeUS ("+5551234567") = "+" ++ stripNonDigits ("+5551234567") := by
  refine ⟨by decide, by decide, ?_⟩
  intro hcon
  have h1 : normalizeUS ("+5551234567") = "+15551234567" := by decide
  have h2 : ("+" : String) ++ stripNonDigits ("+5551234567") = "+5551234567" := by decide
  rw [h1, h2] at hcon
  exact absurd hcon (by decide)

/-- C2 (amended): the `digits.startsWith('+')` branch of `normalizeUS` is
unreachable, because the stripped digit string contains no `'+'`; every
nonempty input — with or without a leading `'+'` — takes the 10-digit,
11-digit or unconditional-`'+'` fallback branch, so extensionally the
result is `'+1' ++ digits` when the strip has exactly 10 digits and
`'+' ++ digits` otherwise. -/
theorem claim_C2_amended (p : String) (h : p ≠ "") :
    jsStartsWith (stripNonDigits p) ("+") = false ∧
    normalizeUS p =
      (if (stripNonDigits p).length = 10 then "+1" ++ stripNonDigits p
       else "+" ++ stripNonDigits p) :=
  ⟨stripNonDigits_startsWith_plus p, normalizeUS_characterisation p h⟩

/-- Witness for C2 (amended) at the concrete input `"+44 7911 123456"`. -/
theorem claim_C2_amended_witness :
    jsStartsWith (stripNonDigits ("+44 7911 123456")) ("+") = false ∧
    normalizeUS ("+44 7911 123456") =
      (if (stripNonDigits ("+44 7911 123456")).length = 10
       then "+1" ++ stripNonDigits ("+44 7911 123456")
       else "+" ++ stripNonDigits ("+44 7911 123456")) :=
  claim_C2_amended ("+44 7911 123456") (by decide)

/-- C7: `normalizeUS` is idempotent for every input string, and the empty
(falsy) input is returned unchanged. -/
theorem claim_C7 :
    (∀ x, normalizeUS (normalizeUS x) = normalizeUS x) ∧ normalizeUS ("") = "" :=
  ⟨normalizeUS_idem, rfl⟩

/-- C10: the `GET /messages` handler normalizes its query parameter before
filtering, so querying with a raw phone string returns exactly the same
message sequence as querying with its canonical form. -/
theorem claim_C10 (messages : List Msg) (r : String) :
    getMessages messages r = getMessages messages (normalizeUS r) := by
  unfold getMessages
  rw [normalizeUS_idem]

/-- C4: every invocation of the `POST /webhooks/twilio-sms` handler —
whether or not an internal step throws — responds with status 200,
content type `text/xml` and the empty XML acknowledgement
`<Response/>`. -/
theorem claim_C4 (messages : List Msg) (reqFrom reqBody : Option String)
    (hubspotToken : String) (hs : HsOracle) (newId ts : String)
    (internalThrow : Bool) :
    (webhookTwilioSms messages reqFrom reqBody hubspotToken hs newId ts internalThrow).fst =
      { status := 200, contentType := "text/xml", responseBody := "<Response/>" } := by
  cases internalThrow <;> rfl

/-- C3: when the carrier call rejects, the `POST /messages` handler
answers the 500 `Send failed` response and appends nothing: the messages
log after the request is exactly the log before it. -/
theorem claim_C3 (messagingServiceSid hubspotToken : String) (messages : List Msg)
    (t b : String) (hs : HsOracle) (newId ts e : String)
    (carrier : CarrierCall → Except String String)
    (ht : ¬ t = "") (hb : ¬ b = "")
    (hsid : ¬ messagingServiceSid = "")
    (hc : carrier (CarrierCall.mk (normalizeUS t) b messagingServiceSid) = Except.error e) :
    postMessages true messagingServiceSid hubspotToken messages (some t) (some b)
        carrier hs newId ts =
      { resp := SendResp.sendFailed, messages := messages,
        carrierCalls := [CarrierCall.mk (normalizeUS t) b messagingServiceSid],
        hsCalls := [] } ∧
    SendResp.status SendResp.sendFailed = 500 := by
  refine ⟨?_, rfl⟩
  unfold postMessages
  have h1 : jsFalsy (some t) = false := by simp [jsFalsy, ht]
  have h2 : jsFalsy (some b) = false := by simp [jsFalsy, hb]
  have h3 : (messagingServiceSid == "") = false := by simp [hsid]
  rw [h1, h2, h3]
  simp [hc]

/-- Witness for C3 at a concrete request whose carrier always rejects. -/
theorem claim_C3_witness :
    postMessages true ("MG1") ("") [] (some ("5551234567")) (some ("hi"))
        (fun _ => Except.error ("carrier down")) (fun _ => Except.error ("x"))
        ("m1") ("2024-01-01T00:00:00.000Z") =
      { resp := SendResp.sendFailed, messages := [],
        carrierCalls := [CarrierCall.mk (normalizeUS ("5551234567")) ("hi") ("MG1")],
        hsCalls := [] } ∧
    SendResp.status SendResp.sendFailed = 500 :=
  claim_C3 ("MG1") ("") [] ("5551234567") ("hi") (fun _ => Except.error ("x"))
    ("m1") ("2024-01-01T00:00:00.000Z") ("carrier down")
    (fun _ => Except.error ("carrier down"))
    (by decide) (by decide) (by decide) rfl

/-- C9: a `POST /messages` request with a missing or empty `to` or `body`
is answered with the 400 validation response, invokes the carrier on
nothing, and leaves the messages log unchanged. -/
theorem claim_C9 (twilioConfigured : Bool) (messagingServiceSid hubspotToken : String)
    (messages : List Msg) (toRaw bodyRaw : Option String)
    (carrier : CarrierCall → Except String String) (hs : HsOracle) (newId ts : String)
    (h : jsFalsy toRaw = true ∨ jsFalsy bodyRaw = true) :
    postMessages twilioConfigured messagingServiceSid hubspotToken messages toRaw bodyRaw
        carrier hs newId ts =
      { resp := SendResp.validationError, messages := messages,
        carrierCalls := [], hsCalls := [] } ∧
    SendResp.status SendResp.validationError = 400 := by
  refine ⟨?_, rfl⟩
  unfold postMessages
  rcases h with h | h <;> rw [h] <;> simp

/-- Witness for C9 at a concrete request with a missing body. -/
theorem claim_C9_witness :
    postMessages true ("MG1") ("") [] (some ("+15551234567")) none
        (fun _ => Except.ok ("SM1")) (fun _ => Except.error ("x"))
        ("m1") ("2024-01-01T00:00:00.000Z") =
      { resp := SendResp.validationError, messages := [],
        carrierCalls := [], hsCalls := [] } ∧
    SendResp.status SendResp.validationError = 400 :=
  claim_C9 true ("MG1") ("") [] (some ("+15551234567")) none
    (fun _ => Except.ok ("SM1")) (fun _ => Except.error ("x"))
    ("m1") ("2024-01-01T00:00:00.000Z") (Or.inr rfl)

/-- C5: `logToHubSpot` never raises back to its caller: with no HubSpot
token it returns before any network call; with a token every collaborator
failure is swallowed; and the `POST /messages` response and resulting
message log do not depend on the HubSpot collaborator's behavior at
all. -/
theorem claim_C5 :
    (∀ f t body ts hs, logToHubSpot ("") f t body ts hs = (Except.ok (), [])) ∧
    (∀ hubspotToken f t body ts hs,
      (logToHubSpot hubspotToken f t body ts hs).fst = Except.ok ()) ∧
    (∀ twilioConfigured messagingServiceSid hubspotToken messages toRaw bodyRaw carrier
        (hs1 hs2 : HsOracle) newId ts,
      (postMessages twilioConfigured messagingServiceSid hubspotToken messages toRaw
          bodyRaw carrier hs1 newId ts).resp =
        (postMessages twilioConfigured messagingServiceSid hubspotToken messages toRaw
          bodyRaw carrier hs2 newId ts).resp ∧
      (postMessages twilioConfigured messagingServiceSid hubspotToken messages toRaw
          bodyRaw carrier hs1 newId ts).messages =
        (postMessages twilioConfigured messagingServiceSid hubspotToken messages toRaw
          bodyRaw carrier hs2 newId ts).messages) := by
  refine ⟨fun f t body ts hs => rfl, ?_, ?_⟩
  · intro hubspotToken f t body ts hs
    unfold logToHubSpot
    by_cases h : (hubspotToken == "") = true
    · rw [if_pos h]
    · rw [if_neg h]
      cases hfst : (logToHubSpotBody f t body ts hs).fst with
      | error e => simp [hfst]
      | ok u => simp [hfst]
  · intro twilioConfigured messagingServiceSid hubspotToken messages toRaw bodyRaw
      carrier hs1 hs2 newId ts
    unfold postMessages
    by_cases hval : (jsFalsy toRaw || jsFalsy bodyRaw) = true
    · rw [if_pos hval, if_pos hval]
      exact ⟨rfl, rfl⟩
    · rw [if_neg hval, if_neg hval]
      by_cases hcfg : (!twilioConfigured || messagingServiceSid == "") = true
      · rw [if_pos hcfg, if_pos hcfg]
        exact ⟨rfl, rfl⟩
      · rw [if_neg hcfg, if_neg hcfg]
        cases hcall : carrier (CarrierCall.mk (normalizeUS (toRaw.getD ("")))
            (bodyRaw.getD ("")) messagingServiceSid) with
        | error e => refine ⟨?_, ?_⟩ <;> simp [hcall]
        | ok sid => refine ⟨?_, ?_⟩ <;> simp [hcall]

theorem jsStartsWith_bearer (t : String) :
    jsStartsWith (("Bearer " : String) ++ t) ("Bearer ") = true := by
  unfold jsStartsWith
  rw [String.data_append]
  exact List.isPrefixOf_iff_prefix.mpr (List.prefix_append _ _)

theorem jsSlice_bearer (t : String) : jsSlice (("Bearer " : String) ++ t) 7 = t := by
  apply String.ext
  show (("Bearer " : String) ++ t).data.drop 7 = t.data
  rw [String.data_append]
  have h7 : ("Bearer " : String).data.length = 7 := by decide
  rw [← h7, List.drop_left]

/-- C6 (counterexample): a missing token and a malformed/expired token
are both rejected with status 401, but with different response bodies
(`No token` vs `Invalid token`), so the caller can distinguish the
missing-token case from the other two. -/
theorem claim_C6_counterexample :
    requireAuth none (fun _ => Except.error ("jwt expired")) =
      Except.error { status := 401, error := "No token" } ∧
    requireAuth (some ("Bearer abc")) (fun _ => Except.error ("jwt expired")) =
      Except.error { status := 401, error := "Invalid token" } ∧
    ¬ ({ status := 401, error := "No token" } : AuthErr) =
      { status := 401, error := "Invalid token" } :=
  ⟨rfl, rfl, by decide⟩

/-- C6 (amended): every failing case is a 401; a malformed token and an
expired token (any two tokens rejected by `jwt.verify`) produce the
identical `Invalid token` response, indistinguishable from one another;
but a missing token produces the distinct `No token` body, so only the
malformed/expired sub-cases are indistinguishable to the caller. -/
theorem claim_C6_amended (verify : String → Except String JwtClaims)
    (t1 t2 e1 e2 : String) (h1 : ¬ t1 = "") (h2 : ¬ t2 = "")
    (hv1 : verify t1 = Except.error e1) (hv2 : verify t2 = Except.error e2) :
    requireAuth none verify = Except.error { status := 401, error := "No token" } ∧
    requireAuth (some (("Bearer " : String) ++ t1)) verify =
      Except.error { status := 401, error := "Invalid token" } ∧
    requireAuth (some (("Bearer " : String) ++ t1)) verify =
      requireAuth (some (("Bearer " : String) ++ t2)) verify := by
  have key : ∀ t e, ¬ t = "" → verify t = Except.error e →
      requireAuth (some (("Bearer " : String) ++ t)) verify =
        Except.error { status := 401, error := "Invalid token" } := by
    intro t e ht hv
    unfold requireAuth
    simp [jsStartsWith_bearer, jsSlice_bearer, jsFalsy, ht, hv]
  exact ⟨rfl, key t1 e1 h1 hv1, (key t1 e1 h1 hv1).trans (key t2 e2 h2 hv2).symm⟩

/-- Witness for C6 (amended) with a verifier that rejects every token. -/
theorem claim_C6_amended_witness :
    requireAuth none (fun s => Except.error (s)) =
      Except.error { status := 401, error := "No token" } ∧
    requireAuth (some (("Bearer " : String) ++ "malformed.token")) (fun s => Except.error (s)) =
      Except.error { status := 401, error := "Invalid token" } ∧
    requireAuth (some (("Bearer " : String) ++ "malformed.token")) (fun s => Except.error (s)) =
      requireAuth (some (("Bearer " : String) ++ "expiredtoken")) (fun s => Except.error (s)) :=
  claim_C6_amended (fun s => Except.error (s)) ("malformed.token") ("expiredtoken")
    ("malformed.token") ("expiredtoken") (by decide) (by decide) rfl rfl

theorem convStep_upd_phone (m : Msg) (c : Conv) :
    (if c.customer_phone == m.customer_phone then
      ({ customer_phone := m.customer_phone, last_at := m.created_at } : Conv)
     else c).customer_phone = c.customer_phone := by
  by_cases h : (c.customer_phone == m.customer_phone) = true
  · rw [if_pos h]
    exact (eq_of_beq h).symm
  · rw [if_neg h]

theorem conv_key_unique {acc : List Conv}
    (hnd : (acc.map (fun c => c.customer_phone)).Nodup) {c1 c2 : Conv}
    (h1 : c1 ∈ acc) (h2 : c2 ∈ acc)
    (h : c1.customer_phone = c2.customer_phone) : c1 = c2 :=
  List.inj_on_of_nodup_map hnd h1 h2 h

/-- One loop iteration of the `GET /conversations` handler preserves the
invariant `ConvGood`. -/
theorem convStep_good {proc : List Msg} {acc : List Conv} (m : Msg)
    (hg : ConvGood proc acc) : ConvGood (proc ++ [m]) (convStep acc m) := by
  obtain ⟨hnd, hkeys, hmax⟩ := hg
  unfold convStep ConvGood
  cases hfind : acc.find? (fun c => c.customer_phone == m.customer_phone) with
  | none =>
    have hnone := List.find?_eq_none.mp hfind
    have hnotin : m.customer_phone ∉ acc.map (fun c => c.customer_phone) := by
      intro hin
      obtain ⟨c, hc, hcp⟩ := List.mem_map.mp hin
      have hnc := hnone c hc
      rw [hcp] at hnc
      exact hnc (beq_self_eq_true m.customer_phone)
    refine ⟨?_, ?_, ?_⟩
    · rw [List.map_append]
      refine List.nodup_append.mpr ⟨hnd, List.nodup_singleton _, ?_⟩
      intro p hp hps
      have hpm : p = m.customer_phone := by simpa using hps
      rw [hpm] at hp
      exact hnotin hp
    · intro p
      rw [List.map_append, List.map_append, List.mem_append, List.mem_append, hkeys p]
      constructor
      · rintro (h | h)
        · exact Or.inl h
        · right
          simpa using h
      · rintro (h | h)
        · exact Or.inl h
        · right
          simpa using h
    · intro c hc
      rw [List.mem_append] at hc
      cases hc with
      | inl hc =>
        have hne : c.customer_phone ≠ m.customer_phone := by
          intro he
          exact hnotin (he ▸ List.mem_map_of_mem (fun c => c.customer_phone) hc)
        obtain ⟨hmem, hub⟩ := hmax c hc
        refine ⟨?_, ?_⟩
        · have hmb : (m.customer_phone == c.customer_phone) = false :=
            beq_eq_false_iff_ne.mpr (fun he => hne he.symm)
          rw [List.filter_append]
          simpa [hmb] using hmem
        · intro mm hmm hph
          rw [List.mem_append] at hmm
          cases hmm with
          | inl h => exact hub mm h hph
          | inr h =>
            rw [List.mem_singleton] at h
            subst h
            exact absurd hph.symm hne
      | inr hc =>
        have hcm : c = { customer_phone := m.customer_phone, last_at := m.created_at } := by
          simpa using hc
        subst hcm
        refine ⟨?_, ?_⟩
        · rw [List.filter_append, List.map_append, List.mem_append]
          right
          simp
        · intro mm hmm hph
          have hph' : mm.customer_phone = m.customer_phone := hph
          rw [List.mem_append] at hmm
          cases hmm with
          | inl h =>
            exfalso
            apply hnotin
            rw [hkeys m.customer_phone]
            exact hph' ▸ List.mem_map_of_mem (fun mm => mm.customer_phone) h
          | inr h =>
            rw [List.mem_singleton] at h
            subst h
            exact le_refl _
  | some prev =>
    have hprev_mem : prev ∈ acc := List.mem_of_find?_eq_some hfind
    have hfb := List.find?_some hfind
    have hprev_eq : prev.customer_phone = m.customer_phone := eq_of_beq hfb
    have hm_in_acc : m.customer_phone ∈ acc.map (fun c => c.customer_phone) :=
      hprev_eq ▸ List.mem_map_of_mem (fun c => c.customer_phone) hprev_mem
    dsimp only
    by_cases hlt : prev.last_at < m.created_at
    · rw [if_pos hlt]
      have hkeys_eq : (acc.map (fun c =>
          if c.customer_phone == m.customer_phone then
            ({ customer_phone := m.customer_phone, last_at := m.created_at } : Conv)
          else c)).map (fun c => c.customer_phone) =
          acc.map (fun c => c.customer_phone) := by
        rw [List.map_map]
        exact List.map_congr_left (fun c _ => convStep_upd_phone m c)
      refine ⟨?_, ?_, ?_⟩
      · rw [hkeys_eq]
        exact hnd
      · intro p
        rw [hkeys_eq, List.map_append, List.mem_append]
        constructor
        · intro h
          exact Or.inl ((hkeys p).mp h)
        · rintro (h | h)
          · exact (hkeys p).mpr h
          · have hp : p = m.customer_phone := by simpa using h
            rw [hp]
            exact hm_in_acc
      · intro c' hc'
        obtain ⟨c, hc, hup⟩ := List.mem_map.mp hc'
        by_cases hcm : (c.customer_phone == m.customer_phone) = true
        · rw [if_pos hcm] at hup
          have hceq : c = prev :=
            conv_key_unique hnd hc hprev_mem ((eq_of_beq hcm).trans hprev_eq.symm)
          subst hup
          refine ⟨?_, ?_⟩
          · rw [List.filter_append, List.map_append, List.mem_append]
            right
            simp
          · intro mm hmm hph
            have hph' : mm.customer_phone = m.customer_phone := hph
            rw [List.mem_append] at hmm
            cases hmm with
            | inl h =>
              have hub := (hmax prev hprev_mem).2 mm h (hph'.trans hprev_eq.symm)
              exact le_trans hub (le_of_lt hlt)
            | inr h =>
              rw [List.mem_singleton] at h
              subst h
              exact le_refl _
        · rw [if_neg hcm] at hup
          subst hup
          have hne : c.customer_phone ≠ m.customer_phone := by
            intro he
            exact hcm (beq_iff_eq.mpr he)
          obtain ⟨hmem, hub⟩ := hmax c hc
          refine ⟨?_, ?_⟩
          · have hmb : (m.customer_phone == c.customer_phone) = false :=
              beq_eq_false_iff_ne.mpr (fun he => hne he.symm)
            rw [List.filter_append]
            simpa [hmb] using hmem
          · intro mm hmm hph
            rw [List.mem_append] at hmm
            cases hmm with
            | inl h => exact hub mm h hph
            | inr h =>
              rw [List.mem_singleton] at h
              subst h
              exact absurd hph.symm hne
    · rw [if_neg hlt]
      have hge : m.created_at ≤ prev.last_at := not_lt.mp hlt
      refine ⟨hnd, ?_, ?_⟩
      · intro p
        rw [List.map_append, List.mem_append]
        constructor
        · intro h
          exact Or.inl ((hkeys p).mp h)
        · rintro (h | h)
          · exact (hkeys p).mpr h
          · have hp : p = m.customer_phone := by simpa using h
            rw [hp]
            exact hm_in_acc
      · intro c hc
        obtain ⟨hmem, hub⟩ := hmax c hc
        refine ⟨?_, ?_⟩
        · rw [List.filter_append, List.map_append, List.mem_append]
          exact Or.inl hmem
        · intro mm hmm hph
          rw [List.mem_append] at hmm
          cases hmm with
          | inl h => exact hub mm h hph
          | inr h =>
            rw [List.mem_singleton] at h
            rw [h] at hph ⊢
            by_cases hcm : c.customer_phone = m.customer_phone
            · have hceq : c = prev :=
                conv_key_unique hnd hc hprev_mem (hcm.trans hprev_eq.symm)
              rw [hceq]
              exact hge
            · exact absurd hph.symm hcm

theorem convGood_nil : ConvGood [] [] := by
  refine ⟨List.nodup_nil, fun p => by simp, fun c hc => absurd hc (List.not_mem_nil c)⟩

/-- The whole `GET /conversations` loop establishes the invariant. -/
theorem convFold_good : ∀ (ms proc : List Msg) (acc : List Conv),
    ConvGood proc acc → ConvGood (proc ++ ms) (ms.foldl convStep acc) := by
  intro ms
  induction ms with
  | nil =>
    intro proc acc h
    simpa using h
  | cons m ms ih =>
    intro proc acc h
    have h2 := ih (proc ++ [m]) (convStep acc m) (convStep_good m h)
    rw [List.append_assoc, List.singleton_append] at h2
    simpa using h2

/-- The comparator of the `GET /conversations` handler sorts the entries
weakly descending by `last_at`. -/
theorem getConversations_pairwise (ms : List Msg) :
    (getConversations ms).Pairwise (fun a b => b.last_at ≤ a.last_at) := by
  have htrans : ∀ a b c : Conv, (!decide (a.last_at < b.last_at)) = true →
      (!decide (b.last_at < c.last_at)) = true →
      (!decide (a.last_at < c.last_at)) = true := by
    intro a b c hab hbc
    simp only [Bool.not_eq_true', decide_eq_false_iff_not, not_lt] at hab hbc ⊢
    exact le_trans hbc hab
  have htotal : ∀ a b : Conv,
      ((!decide (a.last_at < b.last_at)) || (!decide (b.last_at < a.last_at))) = true := by
    intro a b
    by_cases h : a.last_at < b.last_at
    · have hba := lt_asymm h
      simp [hba]
    · simp [h]
  have hp := @List.sorted_mergeSort Conv (fun a b => !decide (a.last_at < b.last_at))
    htrans htotal (ms.foldl convStep [])
  unfold getConversations jsSortBy
  exact List.Pairwise.imp (fun hab => not_lt.mp (by simpa using hab)) hp

/-- C8: the `GET /conversations` handler returns exactly one entry per
distinct identity ever appended (pairwise-distinct phones, covering
exactly the phones present in the log), each entry's `last_at` is a
realized and maximal `created_at` among that identity's messages, and the
entries are ordered weakly descending by `last_at`. -/
theorem claim_C8 (ms : List Msg) :
    ((getConversations ms).map (fun c => c.customer_phone)).Nodup ∧
    (∀ p, p ∈ (getConversations ms).map (fun c => c.customer_phone) ↔
      p ∈ ms.map (fun m => m.customer_phone)) ∧
    (∀ c ∈ getConversations ms,
      c.last_at ∈ (ms.filter (fun m => m.customer_phone == c.customer_phone)).map
        (fun m => m.created_at) ∧
      ∀ m ∈ ms, m.customer_phone = c.customer_phone → m.created_at ≤ c.last_at) ∧
    (getConversations ms).Pairwise (fun a b => b.last_at ≤ a.last_at) := by
  have hg : ConvGood ms (ms.foldl convStep []) := by
    have hgood := convFold_good ms [] [] convGood_nil
    simpa using hgood
  obtain ⟨hnd, hkeys, hmax⟩ := hg
  have hperm : (getConversations ms).Perm (ms.foldl convStep []) := by
    unfold getConversations jsSortBy
    exact List.mergeSort_perm _ _
  refine ⟨?_, ?_, ?_, getConversations_pairwise ms⟩
  · exact (hperm.map (fun c => c.customer_phone)).nodup_iff.mpr hnd
  · intro p
    rw [(hperm.map (fun c => c.customer_phone)).mem_iff]
    exact hkeys p
  · intro c hc
    exact hmax c (hperm.mem_iff.mp hc)

/-- Witness for C8: the realized-maximum fact evaluated on `exampleLog`
at the concrete entry `exampleConv`. -/
theorem claim_C8_witness :
    exampleConv.last_at ∈
      (exampleLog.filter (fun m => m.customer_phone == exampleConv.customer_phone)).map
        (fun m => m.created_at) :=
  ((claim_C8 exampleLog).2.2.1 exampleConv (by
    have hperm : (getConversations exampleLog).Perm (exampleLog.foldl convStep []) := by
      unfold getConversations jsSortBy
      exact List.mergeSort_perm _ _
    exact hperm.mem_iff.mpr (by decide))).1

end Stonebridge
